import Mathlib

/-!
Shallow embedding of the cache-hierarchy engine in
`src/swe_concepts/cpu-cache-test.py`.

Python's `OrderedDict` is modelled as an association list whose front is the
oldest (least-recently-used) entry and whose back is the newest
(most-recently-used) entry.  The simulated latency (`time.sleep`) and the
per-object `threading.Lock` only affect wall-clock time and thread
interleaving; the functional, single-threaded behaviour embedded here is
unchanged by them, so they are not represented.  Fallible operations
(`OrderedDict.popitem` on an empty container raises `KeyError`; an unknown
benchmark pattern leaves the local `keys` unassigned) are modelled with
`Except`.
-/

set_option autoImplicit false

namespace CpuCache

/-- Python runtime values as stored in the caches.  `PyVal.none` is Python's
`None`, which the program uses both as a storable value and as the
absent-key sentinel returned by every `get`. -/
inductive PyVal where
  | none
  | int (n : Int)
  | str (s : String)
deriving DecidableEq

/-- The state of an `OrderedDict[str, Any]`: entries in insertion order,
front = oldest, back = newest. -/
abbrev ODict := List (String × PyVal)

/-- Key lookup (`self.cache[key]` / `key in self.cache`). -/
def lookupOD : ODict → String → Option PyVal
  | [], _ => Option.none
  | (k, v) :: rest, key => if k = key then some v else lookupOD rest key

/-- Membership test `key in self.cache`. -/
def containsOD (d : ODict) (key : String) : Bool :=
  (lookupOD d key).isSome

/-- `self.cache[key] = value` on an `OrderedDict`: an existing key keeps its
position and only its value is replaced; a new key is appended at the newest
end. -/
def assignOD : ODict → String → PyVal → ODict
  | [], key, v => [(key, v)]
  | (k, w) :: rest, key, v =>
    if k = key then (k, v) :: rest else (k, w) :: assignOD rest key v

/-- Removal of the entry for `key`, helper for `move_to_end`. -/
def removeOD : ODict → String → ODict
  | [], _ => []
  | (k, w) :: rest, key => if k = key then rest else (k, w) :: removeOD rest key

/-- `self.cache.move_to_end(key)`: the entry for `key` is moved to the newest
end.  The program only calls it under `if key in self.cache`, so the
missing-key `KeyError` branch is unreachable and modelled as the identity. -/
def moveToEnd (d : ODict) (key : String) : ODict :=
  match lookupOD d key with
  | some v => removeOD d key ++ [(key, v)]
  | Option.none => d

/-- One level of the cache hierarchy (`class CacheLevel`).  `size` is the
capacity bound, `cache` the recency-ordered container, `access_time` the
simulated latency in milliseconds (kept as data; it has no functional
effect). -/
structure CacheLevel where
  name : String
  size : Int
  access_time : Rat
  cache : ODict
  hits : Nat
  misses : Nat
deriving DecidableEq

/-- The record built by `CacheLevel.__init__`: the arguments are stored as
given, the container starts empty and the counters at zero. -/
def CacheLevel.mkLevel (name : String) (size : Int) (access_time : Rat) : CacheLevel :=
  { name := name, size := size, access_time := access_time
    cache := [], hits := 0, misses := 0 }

/-- `CacheLevel.__init__` (lines 11-18): it stores its arguments without any
validation and never raises; the `Except` records that Python construction
could in principle fail, which here it never does. -/
def CacheLevel.init (name : String) (size : Int) (access_time : Rat) :
    Except String CacheLevel :=
  .ok (CacheLevel.mkLevel name size access_time)

/-- `CacheLevel.get` (lines 20-30): on a hit the hit counter is bumped, the
entry is refreshed to most-recently-used and its value returned; on a miss
the miss counter is bumped and `None` is returned. -/
def CacheLevel.get (lvl : CacheLevel) (key : String) : PyVal × CacheLevel :=
  match lookupOD lvl.cache key with
  | some v =>
    (v, { lvl with hits := lvl.hits + 1, cache := moveToEnd lvl.cache key })
  | Option.none =>
    (PyVal.none, { lvl with misses := lvl.misses + 1 })

/-- `CacheLevel.put` (lines 32-38): when `len(self.cache) >= self.size` the
oldest entry is popped (`popitem(last=False)`, a `KeyError` on an empty
container), then `self.cache[key] = value` is executed.  The pop happens
whether or not `key` is already present. -/
def CacheLevel.put (lvl : CacheLevel) (key : String) (v : PyVal) :
    Except String CacheLevel :=
  if (lvl.cache.length : Int) ≥ lvl.size then
    match lvl.cache with
    | [] => .error "KeyError: dictionary is empty"
    | _ :: rest => .ok { lvl with cache := assignOD rest key v }
  else
    .ok { lvl with cache := assignOD lvl.cache key v }

/-- `CacheLevel.clear_stats` (lines 40-43). -/
def CacheLevel.clear_stats (lvl : CacheLevel) : CacheLevel :=
  { lvl with hits := 0, misses := 0 }

/-- One operation applied directly to a single cache level. -/
inductive LevelOp where
  | get (key : String)
  | put (key : String) (v : PyVal)
  | clear_stats
deriving DecidableEq

/-- Applying one operation to a level (errors propagate from `put`). -/
def CacheLevel.step (lvl : CacheLevel) : LevelOp → Except String CacheLevel
  | .get key => .ok (lvl.get key).2
  | .put key v => lvl.put key v
  | .clear_stats => .ok lvl.clear_stats

/-- Applying a sequence of operations to a level, stopping at the first
error. -/
def CacheLevel.run (lvl : CacheLevel) : List LevelOp → Except String CacheLevel
  | [] => .ok lvl
  | op :: ops =>
    match lvl.step op with
    | .error e => .error e
    | .ok lvl' => lvl'.run ops

/-- The simulated slow store (`class Database`). -/
structure Database where
  access_time : Rat
  data : ODict
  reads : Nat
  writes : Nat
deriving DecidableEq

/-- `Database.__init__` with the default latency of 0.1 ms. -/
def Database.init : Database :=
  { access_time := 1 / 10, data := [], reads := 0, writes := 0 }

/-- `Database.get` (lines 59-63): bump the read counter and return
`self.data.get(key)`, which is `None` when the key is absent. -/
def Database.get (db : Database) (key : String) : PyVal × Database :=
  ((lookupOD db.data key).getD PyVal.none, { db with reads := db.reads + 1 })

/-- `Database.put` (lines 65-69). -/
def Database.put (db : Database) (key : String) (v : PyVal) : Database :=
  { db with writes := db.writes + 1, data := assignOD db.data key v }

/-- `class CacheHierarchy`: three levels, nearest first, plus the database. -/
structure CacheHierarchy where
  l1 : CacheLevel
  l2 : CacheLevel
  l3 : CacheLevel
  db : Database
deriving DecidableEq

/-- `CacheHierarchy.__init__` (lines 73-78). -/
def CacheHierarchy.init : CacheHierarchy :=
  { l1 := CacheLevel.mkLevel "L1" 100 (1 / 1000)
    l2 := CacheLevel.mkLevel "L2" 1000 (1 / 100)
    l3 := CacheLevel.mkLevel "L3" 10000 (1 / 20)
    db := Database.init }

/-- `CacheHierarchy.get` (lines 80-103): probe L1, then L2, then L3, and
finally the database; a value counts as found when it `is not None`; every
found value is written into all nearer levels before returning. -/
def CacheHierarchy.get (h : CacheHierarchy) (key : String) :
    Except String (PyVal × CacheHierarchy) :=
  let (v1, l1') := h.l1.get key
  if v1 ≠ PyVal.none then
    .ok (v1, { h with l1 := l1' })
  else
    let (v2, l2') := h.l2.get key
    if v2 ≠ PyVal.none then
      match l1'.put key v2 with
      | .error e => .error e
      | .ok l1'' => .ok (v2, { h with l1 := l1'', l2 := l2' })
    else
      let (v3, l3') := h.l3.get key
      if v3 ≠ PyVal.none then
        match l2'.put key v3 with
        | .error e => .error e
        | .ok l2'' =>
          match l1'.put key v3 with
          | .error e => .error e
          | .ok l1'' => .ok (v3, { h with l1 := l1'', l2 := l2'', l3 := l3' })
      else
        let (vd, db') := h.db.get key
        if vd ≠ PyVal.none then
          match l3'.put key vd with
          | .error e => .error e
          | .ok l3'' =>
            match l2'.put key vd with
            | .error e => .error e
            | .ok l2'' =>
              match l1'.put key vd with
              | .error e => .error e
              | .ok l1'' =>
                .ok (vd, { h with l1 := l1'', l2 := l2'', l3 := l3'', db := db' })
        else
          .ok (PyVal.none, { h with l1 := l1', l2 := l2', l3 := l3', db := db' })

/-- A single write performed by `CacheHierarchy.put`, in program order. -/
inductive WriteEvent where
  | backing (key : String)
  | level (name : String) (key : String)
deriving DecidableEq

/-- `CacheHierarchy.put` (lines 105-110) instrumented with the sequence of
writes it performs: `self.db.put`, then `self.l3.put`, then `self.l2.put`,
then `self.l1.put`. -/
def CacheHierarchy.putTraced (h : CacheHierarchy) (key : String) (v : PyVal) :
    Except String (CacheHierarchy × List WriteEvent) :=
  let db' := h.db.put key v
  match h.l3.put key v with
  | .error e => .error e
  | .ok l3' =>
    match h.l2.put key v with
    | .error e => .error e
    | .ok l2' =>
      match h.l1.put key v with
      | .error e => .error e
      | .ok l1' =>
        .ok ({ l1 := l1', l2 := l2', l3 := l3', db := db' },
          [.backing key, .level h.l3.name key, .level h.l2.name key,
            .level h.l1.name key])

/-- `CacheHierarchy.put` (lines 105-110): write-through to the database and
then to L3, L2, L1. -/
def CacheHierarchy.put (h : CacheHierarchy) (key : String) (v : PyVal) :
    Except String CacheHierarchy :=
  let db' := h.db.put key v
  match h.l3.put key v with
  | .error e => .error e
  | .ok l3' =>
    match h.l2.put key v with
    | .error e => .error e
    | .ok l2' =>
      match h.l1.put key v with
      | .error e => .error e
      | .ok l1' => .ok { l1 := l1', l2 := l2', l3 := l3', db := db' }

/-- The state part of the instrumented put agrees with `CacheHierarchy.put`. -/
theorem putTraced_state (h : CacheHierarchy) (key : String) (v : PyVal) :
    (h.putTraced key v).map Prod.fst = h.put key v := by
  unfold CacheHierarchy.putTraced CacheHierarchy.put
  cases h.l3.put key v with
  | error e => rfl
  | ok l3' =>
    cases h.l2.put key v with
    | error e => rfl
    | ok l2' =>
      cases h.l1.put key v with
      | error e => rfl
      | ok l1' => rfl

/-- Model of Python's `random.randint(a, b)`, which is uniform over the
closed interval from `a` to `b`, both endpoints included: draw `s` is mapped
into that interval. -/
def randint (a b s : Nat) : Nat :=
  a + s % (b + 1 - a)

/-- Key generation of `run_access_pattern_benchmark` (lines 126-137),
parameterised by the stream of pseudo-random draws: `coin j` models
`random.random() < 0.8` for the j-th draw and `rand j` the j-th integer
draw.  `int(num_operations * 0.2)` truncates a float product; it is modelled
as `n / 5`, exact whenever `n * 0.2` is exactly representable.  For a
pattern name outside the three handled ones no branch assigns `keys` and the
later use of `keys` raises `UnboundLocalError`. -/
def generateKeys (pattern : String) (n : Nat) (coin : Nat → Bool)
    (rand : Nat → Nat) : Except String (List String) :=
  if pattern = "sequential" then
    .ok ((List.range n).map (fun i => "key_" ++ toString i))
  else if pattern = "random" then
    .ok ((List.range n).map (fun j => "key_" ++ toString (randint 0 (n * 2) (rand j))))
  else if pattern = "locality" then
    let hotKeys := (List.range (n / 5)).map (fun i => "key_" ++ toString i)
    .ok ((List.range n).map (fun j =>
      if coin j then hotKeys.getD (rand j % max hotKeys.length 1) "key_0"
      else "key_" ++ toString (randint 0 n (rand j))))
  else
    .error "UnboundLocalError: local variable keys referenced before assignment"

/-! Lemmas about the `OrderedDict` model. -/

theorem lookupOD_assignOD_self (d : ODict) (key : String) (v : PyVal) :
    lookupOD (assignOD d key v) key = some v := by
  induction d with
  | nil => simp [assignOD, lookupOD]
  | cons p rest ih =>
    obtain ⟨k, w⟩ := p
    by_cases hk : k = key
    · simp [assignOD, lookupOD, hk]
    · simp [assignOD, lookupOD, hk, ih]

theorem lookupOD_assignOD_ne (d : ODict) (key k' : String) (v : PyVal)
    (hne : k' ≠ key) : lookupOD (assignOD d key v) k' = lookupOD d k' := by
  induction d with
  | nil => simp [assignOD, lookupOD, Ne.symm hne]
  | cons p rest ih =>
    obtain ⟨k, w⟩ := p
    by_cases hk : k = key
    · subst hk
      simp [assignOD, lookupOD, Ne.symm hne]
    · simp only [assignOD, if_neg hk, lookupOD]
      by_cases hk' : k = k'
      · simp [hk']
      · simp [hk', ih]

theorem containsOD_assignOD_of_contains (d : ODict) (key k' : String) (v : PyVal)
    (hc : containsOD d k' = true) : containsOD (assignOD d key v) k' = true := by
  by_cases hk : k' = key
  · subst hk
    simp [containsOD, lookupOD_assignOD_self]
  · simpa [containsOD, lookupOD_assignOD_ne d key k' v hk] using hc

theorem assignOD_length_le (d : ODict) (key : String) (v : PyVal) :
    (assignOD d key v).length ≤ d.length + 1 := by
  induction d with
  | nil => simp [assignOD]
  | cons p rest ih =>
    obtain ⟨k, w⟩ := p
    by_cases hk : k = key
    · simp [assignOD, hk]
    · simpa [assignOD, hk] using ih

theorem containsOD_cons_false (k : String) (w : PyVal) (rest : ODict) (key : String)
    (h : containsOD ((k, w) :: rest) key = false) :
    k ≠ key ∧ containsOD rest key = false := by
  by_cases hk : k = key
  · simp [containsOD, lookupOD, hk] at h
  · exact ⟨hk, by simpa [containsOD, lookupOD, hk] using h⟩

theorem assignOD_of_not_contains (d : ODict) (key : String) (v : PyVal)
    (h : containsOD d key = false) : assignOD d key v = d ++ [(key, v)] := by
  induction d with
  | nil => simp [assignOD]
  | cons p rest ih =>
    obtain ⟨k, w⟩ := p
    obtain ⟨hk, hrest⟩ := containsOD_cons_false k w rest key h
    simp [assignOD, hk, ih hrest]

theorem assignOD_map_fst_of_contains (d : ODict) (key : String) (v : PyVal)
    (h : containsOD d key = true) :
    (assignOD d key v).map Prod.fst = d.map Prod.fst := by
  induction d with
  | nil => simp [containsOD, lookupOD] at h
  | cons p rest ih =>
    obtain ⟨k, w⟩ := p
    by_cases hk : k = key
    · simp [assignOD, hk]
    · have hrest : containsOD rest key = true := by
        simpa [containsOD, lookupOD, hk] using h
      simp [assignOD, hk, ih hrest]

theorem containsOD_iff_mem (d : ODict) (key : String) :
    containsOD d key = true ↔ key ∈ d.map Prod.fst := by
  induction d with
  | nil => simp [containsOD, lookupOD]
  | cons p rest ih =>
    obtain ⟨k, w⟩ := p
    by_cases hk : k = key
    · simp [containsOD, lookupOD, hk]
    · rw [List.map_cons, List.mem_cons]
      constructor
      · intro hc
        exact Or.inr (ih.mp (by simpa [containsOD, lookupOD, hk] using hc))
      · rintro (hc | hc)
        · exact absurd hc.symm hk
        · simpa [containsOD, lookupOD, hk] using ih.mpr hc

theorem lookupOD_eq_none_of_not_mem (d : ODict) (key : String)
    (h : key ∉ d.map Prod.fst) : lookupOD d key = Option.none := by
  induction d with
  | nil => rfl
  | cons p rest ih =>
    obtain ⟨k, w⟩ := p
    simp only [List.map_cons, List.mem_cons] at h
    push_neg at h
    simp [lookupOD, Ne.symm h.1, ih h.2]

theorem removeOD_length (d : ODict) (key : String)
    (h : containsOD d key = true) : (removeOD d key).length + 1 = d.length := by
  induction d with
  | nil => simp [containsOD, lookupOD] at h
  | cons p rest ih =>
    obtain ⟨k, w⟩ := p
    by_cases hk : k = key
    · simp [removeOD, hk]
    · have hrest : containsOD rest key = true := by
        simpa [containsOD, lookupOD, hk] using h
      simp [removeOD, hk, ih hrest]

theorem moveToEnd_length (d : ODict) (key : String) :
    (moveToEnd d key).length = d.length := by
  unfold moveToEnd
  cases hl : lookupOD d key with
  | none => rfl
  | some v =>
    have hc : containsOD d key = true := by simp [containsOD, hl]
    have := removeOD_length d key hc
    simp only [List.length_append, List.length_cons, List.length_nil]
    omega

theorem removeOD_map_fst_sublist (d : ODict) (key : String) :
    ((removeOD d key).map Prod.fst).Sublist (d.map Prod.fst) := by
  induction d with
  | nil => simp [removeOD]
  | cons p rest ih =>
    obtain ⟨k, w⟩ := p
    by_cases hk : k = key
    · simp only [removeOD, if_pos hk, List.map_cons]
      exact (List.sublist_cons_self _ _)
    · simp only [removeOD, if_neg hk, List.map_cons]
      exact ih.cons₂ k

theorem lookupOD_removeOD_self (d : ODict) (key : String)
    (hwf : (d.map Prod.fst).Nodup) :
    lookupOD (removeOD d key) key = Option.none := by
  induction d with
  | nil => rfl
  | cons p rest ih =>
    obtain ⟨k, w⟩ := p
    simp only [List.map_cons, List.nodup_cons] at hwf
    by_cases hk : k = key
    · subst hk
      simp only [removeOD, if_pos rfl]
      exact lookupOD_eq_none_of_not_mem rest k hwf.1
    · simp [lookupOD, removeOD, hk, ih hwf.2]

theorem lookupOD_append_of_none (d1 d2 : ODict) (key : String)
    (h : lookupOD d1 key = Option.none) :
    lookupOD (d1 ++ d2) key = lookupOD d2 key := by
  induction d1 with
  | nil => rfl
  | cons p rest ih =>
    obtain ⟨k, w⟩ := p
    by_cases hk : k = key
    · simp [lookupOD, hk] at h
    · simp only [lookupOD, if_neg hk] at h
      simpa [lookupOD, hk] using ih h

theorem lookupOD_moveToEnd_self (d : ODict) (key : String) (v : PyVal)
    (hwf : (d.map Prod.fst).Nodup) (h : lookupOD d key = some v) :
    lookupOD (moveToEnd d key) key = some v := by
  unfold moveToEnd
  rw [h, lookupOD_append_of_none _ _ _ (lookupOD_removeOD_self d key hwf)]
  simp [lookupOD]

theorem moveToEnd_map_fst_nodup (d : ODict) (key : String)
    (hwf : (d.map Prod.fst).Nodup) :
    ((moveToEnd d key).map Prod.fst).Nodup := by
  unfold moveToEnd
  cases hl : lookupOD d key with
  | none => exact hwf
  | some v =>
    have hrm : lookupOD (removeOD d key) key = Option.none :=
      lookupOD_removeOD_self d key hwf
    have hsub : ((removeOD d key).map Prod.fst).Nodup :=
      (removeOD_map_fst_sublist d key).nodup hwf
    have hnm : key ∉ (removeOD d key).map Prod.fst := by
      intro hmem
      have hcc := (containsOD_iff_mem (removeOD d key) key).mpr hmem
      rw [containsOD, hrm] at hcc
      simp at hcc
    simp only [List.map_append, List.map_cons, List.map_nil]
    exact List.Nodup.append hsub (by simp) (by simpa using hnm)

theorem assignOD_map_fst_nodup (d : ODict) (key : String) (v : PyVal)
    (hwf : (d.map Prod.fst).Nodup) :
    ((assignOD d key v).map Prod.fst).Nodup := by
  by_cases hc : containsOD d key = true
  · rwa [assignOD_map_fst_of_contains d key v hc]
  · rw [assignOD_of_not_contains d key v (by revert hc; cases containsOD d key <;> simp)]
    have hnm : key ∉ d.map Prod.fst := by
      intro hmem
      exact hc ((containsOD_iff_mem _ _).mpr hmem)
    simp only [List.map_append, List.map_cons, List.map_nil]
    exact List.Nodup.append hwf (by simp) (by simpa using hnm)

/-! Lemmas about single cache levels. -/

/-- The state update a `CacheLevel.get` hit performs. -/
def CacheLevel.hitUpdate (lvl : CacheLevel) (key : String) : CacheLevel :=
  { lvl with hits := lvl.hits + 1, cache := moveToEnd lvl.cache key }

/-- The state update a `CacheLevel.get` miss performs. -/
def CacheLevel.missUpdate (lvl : CacheLevel) : CacheLevel :=
  { lvl with misses := lvl.misses + 1 }

theorem CacheLevel.get_hit (lvl : CacheLevel) (key : String) (v : PyVal)
    (h : lookupOD lvl.cache key = some v) :
    lvl.get key = (v, lvl.hitUpdate key) := by
  unfold CacheLevel.get CacheLevel.hitUpdate
  rw [h]

theorem CacheLevel.get_miss (lvl : CacheLevel) (key : String)
    (h : lookupOD lvl.cache key = Option.none) :
    lvl.get key = (PyVal.none, lvl.missUpdate) := by
  unfold CacheLevel.get CacheLevel.missUpdate
  rw [h]

theorem CacheLevel.put_lookup_self (lvl lvl' : CacheLevel) (key : String) (v : PyVal)
    (h : lvl.put key v = .ok lvl') : lookupOD lvl'.cache key = some v := by
  unfold CacheLevel.put at h
  split at h
  · cases hc : lvl.cache with
    | nil =>
      rw [hc] at h
      exact absurd h (by simp)
    | cons x rest =>
      rw [hc] at h
      simp only [Except.ok.injEq] at h
      rw [← h]
      exact lookupOD_assignOD_self rest key v
  · simp only [Except.ok.injEq] at h
    rw [← h]
    exact lookupOD_assignOD_self lvl.cache key v

theorem CacheLevel.put_ok_of_size_pos (lvl : CacheLevel) (key : String) (v : PyVal)
    (hs : (1 : Int) ≤ lvl.size) : ∃ lvl', lvl.put key v = .ok lvl' := by
  unfold CacheLevel.put
  split
  · rename_i hge
    cases hc : lvl.cache with
    | nil =>
      exfalso
      rw [hc] at hge
      simp only [List.length_nil, Nat.cast_zero, ge_iff_le] at hge
      omega
    | cons x rest => exact ⟨_, rfl⟩
  · exact ⟨_, rfl⟩

theorem CacheLevel.put_fields (lvl lvl' : CacheLevel) (key : String) (v : PyVal)
    (h : lvl.put key v = .ok lvl') :
    lvl'.name = lvl.name ∧ lvl'.size = lvl.size ∧ lvl'.hits = lvl.hits ∧
      lvl'.misses = lvl.misses := by
  unfold CacheLevel.put at h
  split at h
  · cases hc : lvl.cache with
    | nil =>
      rw [hc] at h
      exact absurd h (by simp)
    | cons x rest =>
      rw [hc] at h
      simp only [Except.ok.injEq] at h
      rw [← h]
      exact ⟨rfl, rfl, rfl, rfl⟩
  · simp only [Except.ok.injEq] at h
    rw [← h]
    exact ⟨rfl, rfl, rfl, rfl⟩

theorem CacheLevel.put_length_le (c : Nat) (lvl lvl' : CacheLevel) (key : String)
    (v : PyVal) (hsize : lvl.size = (c : Int)) (hlen : lvl.cache.length ≤ c)
    (h : lvl.put key v = .ok lvl') : lvl'.cache.length ≤ c := by
  unfold CacheLevel.put at h
  split at h
  · rename_i hge
    cases hc : lvl.cache with
    | nil =>
      rw [hc] at h
      exact absurd h (by simp)
    | cons x rest =>
      rw [hc] at h
      simp only [Except.ok.injEq] at h
      rw [← h]
      have h1 : (assignOD rest key v).length ≤ rest.length + 1 :=
        assignOD_length_le rest key v
      have h2 : rest.length + 1 = lvl.cache.length := by rw [hc]; rfl
      simp only
      omega
  · rename_i hlt
    rw [hsize] at hlt
    have hlt' : lvl.cache.length < c := by
      have hx := lt_of_not_ge hlt
      exact_mod_cast hx
    simp only [Except.ok.injEq] at h
    rw [← h]
    have h1 : (assignOD lvl.cache key v).length ≤ lvl.cache.length + 1 :=
      assignOD_length_le lvl.cache key v
    simp only
    omega

theorem CacheLevel.step_size (lvl lvl' : CacheLevel) (op : LevelOp)
    (h : lvl.step op = .ok lvl') : lvl'.size = lvl.size := by
  cases op with
  | get key =>
    simp only [CacheLevel.step, Except.ok.injEq] at h
    rw [← h]
    unfold CacheLevel.get
    cases lookupOD lvl.cache key <;> rfl
  | put key v => exact (CacheLevel.put_fields lvl lvl' key v h).2.1
  | clear_stats =>
    simp only [CacheLevel.step, Except.ok.injEq] at h
    rw [← h]
    rfl

theorem CacheLevel.get_cache_length (lvl : CacheLevel) (key : String) :
    ((lvl.get key).2).cache.length = lvl.cache.length := by
  unfold CacheLevel.get
  cases hl : lookupOD lvl.cache key with
  | none => rfl
  | some v => simpa using moveToEnd_length lvl.cache key

theorem CacheLevel.step_length (c : Nat) (lvl lvl' : CacheLevel) (op : LevelOp)
    (hsize : lvl.size = (c : Int)) (hlen : lvl.cache.length ≤ c)
    (h : lvl.step op = .ok lvl') : lvl'.cache.length ≤ c := by
  cases op with
  | get key =>
    simp only [CacheLevel.step, Except.ok.injEq] at h
    rw [← h]
    rw [CacheLevel.get_cache_length lvl key]
    exact hlen
  | put key v => exact CacheLevel.put_length_le c lvl lvl' key v hsize hlen h
  | clear_stats =>
    simp only [CacheLevel.step, Except.ok.injEq] at h
    rw [← h]
    exact hlen

theorem CacheLevel.run_length (c : Nat) (ops : List LevelOp) (lvl lvl' : CacheLevel)
    (hsize : lvl.size = (c : Int)) (hlen : lvl.cache.length ≤ c)
    (h : lvl.run ops = .ok lvl') : lvl'.cache.length ≤ c := by
  induction ops generalizing lvl with
  | nil =>
    simp only [CacheLevel.run, Except.ok.injEq] at h
    rw [← h]
    exact hlen
  | cons op ops ih =>
    unfold CacheLevel.run at h
    cases hs : lvl.step op with
    | error e =>
      rw [hs] at h
      exact absurd h (by simp)
    | ok lvlm =>
      rw [hs] at h
      exact ih lvlm
        (by rw [CacheLevel.step_size lvl lvlm op hs]; exact hsize)
        (CacheLevel.step_length c lvl lvlm op hsize hlen hs) h

/-! Claims C1 to C4: single-level behaviour. -/

/-- C1: for every `CacheLevel` constructed with capacity `c`, after any
sequence of `get`/`put`/`clear_stats` operations that completes without a
`KeyError`, the number of entries stored in the level is at most `c`. -/
theorem capacity_invariant (name : String) (c : Nat) (t : Rat)
    (ops : List LevelOp) (lvl' : CacheLevel)
    (hrun : (CacheLevel.mkLevel name (c : Int) t).run ops = .ok lvl') :
    lvl'.cache.length ≤ c :=
  CacheLevel.run_length c ops (CacheLevel.mkLevel name (c : Int) t) lvl' rfl
    (Nat.zero_le c) hrun

/-- Witness for `capacity_invariant`: a capacity-2 level keeps at most two
entries across three inserts. -/
theorem capacity_invariant_witness :
    ({ name := "L", size := 2, access_time := 0,
        cache := [("b", PyVal.int 2), ("c", PyVal.int 3)], hits := 0,
        misses := 0 } : CacheLevel).cache.length ≤ 2 :=
  capacity_invariant "L" 2 0
    [LevelOp.put "a" (PyVal.int 1), LevelOp.put "b" (PyVal.int 2),
      LevelOp.put "c" (PyVal.int 3)] _ rfl

/-- C2: with capacity 2, `put(a,1); put(b,2); put(c,3)` evicts `a` and a
subsequent `get(a)` is a miss; with capacity 2,
`put(a,1); put(b,2); get(a); put(c,3)` evicts `b` while `a` stays present
because the read refreshed its recency. -/
theorem lru_eviction_and_recency_refresh :
    (((CacheLevel.mkLevel "L" 2 0).run
        [LevelOp.put "a" (PyVal.int 1), LevelOp.put "b" (PyVal.int 2),
          LevelOp.put "c" (PyVal.int 3)]).map
      (fun l => (containsOD l.cache "a", (l.get "a").1, (l.get "a").2.misses)) =
      .ok (false, PyVal.none, 1)) ∧
    (((CacheLevel.mkLevel "L" 2 0).run
        [LevelOp.put "a" (PyVal.int 1), LevelOp.put "b" (PyVal.int 2),
          LevelOp.get "a", LevelOp.put "c" (PyVal.int 3)]).map
      (fun l => (containsOD l.cache "b", containsOD l.cache "a")) =
      .ok (false, true)) := by
  constructor <;> rfl

/-- C3 as stated is false: `CacheLevel.put` pops the oldest entry whenever
the level is at capacity, even when the key being written is already
present.  With capacity 2 holding `a` and `b`, overwriting `b` evicts `a`. -/
theorem put_overwrite_evicts_cex :
    containsOD [("a", PyVal.int 1), ("b", PyVal.int 2)] "b" = true ∧
    CacheLevel.put
        { name := "L", size := 2, access_time := 0,
          cache := [("a", PyVal.int 1), ("b", PyVal.int 2)], hits := 0,
          misses := 0 } "b" (PyVal.int 9) =
      .ok { name := "L", size := 2, access_time := 0,
            cache := [("b", PyVal.int 9)], hits := 0, misses := 0 } ∧
    containsOD [("b", PyVal.int 9)] "a" = false := by
  refine ⟨rfl, ?_, rfl⟩
  rfl

/-- C3 amended: a put below capacity never evicts any entry; a put at (or
above) capacity always pops the oldest entry, whether or not the written key
is already present — in particular an overwriting put at capacity evicts the
oldest entry whenever that entry has a different key. -/
theorem put_eviction_condition (lvl lvl' : CacheLevel) (key : String) (v : PyVal)
    (hwf : (lvl.cache.map Prod.fst).Nodup)
    (hput : lvl.put key v = .ok lvl') :
    ((lvl.cache.length : Int) < lvl.size →
      ∀ k', containsOD lvl.cache k' = true → containsOD lvl'.cache k' = true) ∧
    (∀ k0 v0 rest, lvl.cache = (k0, v0) :: rest →
      (lvl.cache.length : Int) ≥ lvl.size → k0 ≠ key →
      containsOD lvl'.cache k0 = false) := by
  unfold CacheLevel.put at hput
  split at hput
  · rename_i hge
    constructor
    · intro hlt
      omega
    · intro k0 v0 rest hc _ hk0
      rw [hc] at hput
      simp only [Except.ok.injEq] at hput
      rw [← hput]
      simp only
      rw [hc, List.map_cons, List.nodup_cons] at hwf
      have hrest : containsOD rest k0 = false := by
        have := lookupOD_eq_none_of_not_mem rest k0 hwf.1
        simp [containsOD, this]
      rw [containsOD, lookupOD_assignOD_ne rest key k0 v hk0,
        lookupOD_eq_none_of_not_mem rest k0 hwf.1]
      rfl
  · rename_i hlt
    constructor
    · intro _ k' hk'
      simp only [Except.ok.injEq] at hput
      rw [← hput]
      exact containsOD_assignOD_of_contains lvl.cache key k' v hk'
    · intro k0 v0 rest hc hge _
      exact absurd hge hlt


/-- Witness for `put_eviction_condition`: the at-capacity overwrite of `b`
removes `a`. -/
theorem put_eviction_condition_witness :
    containsOD [("b", PyVal.int 9)] "a" = false :=
  (put_eviction_condition
    { name := "L", size := 2, access_time := 0,
      cache := [("a", PyVal.int 1), ("b", PyVal.int 2)], hits := 0, misses := 0 }
    { name := "L", size := 2, access_time := 0,
      cache := [("b", PyVal.int 9)], hits := 0, misses := 0 }
    "b" (PyVal.int 9) (by decide) rfl).2 "a" (PyVal.int 1)
    [("b", PyVal.int 2)] rfl (by decide) (by decide)

/-- C4 as stated is false: writing an already-present key below capacity
updates the value in place without refreshing its recency; with capacity 3
and recency order `[a, b]`, `put(a, 9)` leaves `b`, not `a`, as the
most-recently-used entry. -/
theorem put_overwrite_not_mru_cex :
    CacheLevel.put
        { name := "L", size := 3, access_time := 0,
          cache := [("a", PyVal.int 1), ("b", PyVal.int 2)], hits := 0,
          misses := 0 } "a" (PyVal.int 9) =
      .ok { name := "L", size := 3, access_time := 0,
            cache := [("a", PyVal.int 9), ("b", PyVal.int 2)], hits := 0,
            misses := 0 } ∧
    ([("a", PyVal.int 9), ("b", PyVal.int 2)] : ODict).getLast? =
      some ("b", PyVal.int 2) ∧
    ("b", PyVal.int 2) ≠ (("a" : String), PyVal.int 9) :=
  ⟨rfl, rfl, by decide⟩

/-- C4 amended: after a put of a key that was not present, that key is the
most-recently-used (newest) entry; overwriting a present key below capacity
keeps every key in its old recency position and only replaces the stored
value. -/
theorem put_recency (lvl lvl' : CacheLevel) (key : String) (v : PyVal)
    (hput : lvl.put key v = .ok lvl') :
    (containsOD lvl.cache key = false → lvl'.cache.getLast? = some (key, v)) ∧
    (containsOD lvl.cache key = true → (lvl.cache.length : Int) < lvl.size →
      lvl'.cache.map Prod.fst = lvl.cache.map Prod.fst ∧
      lookupOD lvl'.cache key = some v) := by
  unfold CacheLevel.put at hput
  split at hput
  · rename_i hge
    cases hc : lvl.cache with
    | nil =>
      rw [hc] at hput
      exact absurd hput (by simp)
    | cons x rest =>
      rw [hc] at hput
      simp only [Except.ok.injEq] at hput
      constructor
      · intro hnc
        rw [← hput]
        simp only
        obtain ⟨x1, x2⟩ := x
        have hrest : containsOD rest key = false :=
          (containsOD_cons_false x1 x2 rest key hnc).2
        rw [assignOD_of_not_contains rest key v hrest]
        exact List.getLast?_concat _
      · intro _ hlt
        rw [hc] at hge
        exact absurd hge (not_le.mpr hlt)
  · rename_i hlt
    simp only [Except.ok.injEq] at hput
    constructor
    · intro hnc
      rw [← hput]
      simp only
      rw [assignOD_of_not_contains lvl.cache key v hnc]
      exact List.getLast?_concat _
    · intro hcont _
      rw [← hput]
      exact ⟨assignOD_map_fst_of_contains lvl.cache key v hcont,
        lookupOD_assignOD_self lvl.cache key v⟩

/-- Witness for `put_recency`: inserting a fresh key makes it the newest
entry. -/
theorem put_recency_witness :
    ([("a", PyVal.int 1)] : ODict).getLast? = some ("a", PyVal.int 1) :=
  (put_recency
    { name := "L", size := 2, access_time := 0, cache := [], hits := 0,
      misses := 0 }
    { name := "L", size := 2, access_time := 0, cache := [("a", PyVal.int 1)],
      hits := 0, misses := 0 } "a" (PyVal.int 1) rfl).1 rfl

/-! Lemmas about `CacheHierarchy.get`, one per probe outcome. -/

theorem get_l1_found (h : CacheHierarchy) (key : String) (v : PyVal)
    (hv : v ≠ PyVal.none) (hl : lookupOD h.l1.cache key = some v) :
    h.get key = .ok (v, { h with l1 := h.l1.hitUpdate key }) := by
  unfold CacheHierarchy.get
  rw [CacheLevel.get_hit h.l1 key v hl]
  simp [hv]

theorem get_l2_found (h : CacheHierarchy) (key : String) (v : PyVal)
    (hv : v ≠ PyVal.none) (h1 : lookupOD h.l1.cache key = Option.none)
    (h2 : lookupOD h.l2.cache key = some v) (hs1 : (1 : Int) ≤ h.l1.size) :
    ∃ h', h.get key = .ok (v, h') ∧
      lookupOD h'.l1.cache key = some v ∧
      h'.l1.misses = h.l1.misses + 1 ∧ h'.l2.hits = h.l2.hits + 1 ∧
      h'.l3 = h.l3 ∧ h'.db = h.db := by
  obtain ⟨l1'', hok⟩ := CacheLevel.put_ok_of_size_pos
    (h.l1.missUpdate) key v hs1
  refine ⟨{ h with l1 := l1'', l2 := h.l2.hitUpdate key }, ?_, ?_, ?_, rfl, rfl, rfl⟩
  · unfold CacheHierarchy.get
    rw [CacheLevel.get_miss h.l1 key h1]
    simp only [ne_eq, not_true_eq_false, if_false, reduceIte]
    rw [CacheLevel.get_hit h.l2 key v h2]
    simp only [hv, not_false_eq_true, if_true, reduceIte]
    rw [hok]
  · exact CacheLevel.put_lookup_self _ _ _ _ hok
  · rw [(CacheLevel.put_fields _ _ _ _ hok).2.2.2]
    rfl

theorem get_l3_found (h : CacheHierarchy) (key : String) (v : PyVal)
    (hv : v ≠ PyVal.none) (h1 : lookupOD h.l1.cache key = Option.none)
    (h2 : lookupOD h.l2.cache key = Option.none)
    (h3 : lookupOD h.l3.cache key = some v)
    (hs1 : (1 : Int) ≤ h.l1.size) (hs2 : (1 : Int) ≤ h.l2.size) :
    ∃ h', h.get key = .ok (v, h') ∧
      lookupOD h'.l1.cache key = some v ∧ lookupOD h'.l2.cache key = some v ∧
      h'.l1.misses = h.l1.misses + 1 ∧ h'.l2.misses = h.l2.misses + 1 ∧
      h'.l3.hits = h.l3.hits + 1 ∧ h'.db = h.db := by
  obtain ⟨l2'', hok2⟩ := CacheLevel.put_ok_of_size_pos (h.l2.missUpdate) key v hs2
  obtain ⟨l1'', hok1⟩ := CacheLevel.put_ok_of_size_pos (h.l1.missUpdate) key v hs1
  refine ⟨{ h with l1 := l1'', l2 := l2'', l3 := h.l3.hitUpdate key },
    ?_, ?_, ?_, ?_, ?_, rfl, rfl⟩
  · unfold CacheHierarchy.get
    rw [CacheLevel.get_miss h.l1 key h1]
    simp only [ne_eq, not_true_eq_false, if_false, reduceIte]
    rw [CacheLevel.get_miss h.l2 key h2]
    simp only [ne_eq, not_true_eq_false, if_false, reduceIte]
    rw [CacheLevel.get_hit h.l3 key v h3]
    simp only [hv, not_false_eq_true, if_true, reduceIte]
    rw [hok2, hok1]
  · exact CacheLevel.put_lookup_self _ _ _ _ hok1
  · exact CacheLevel.put_lookup_self _ _ _ _ hok2
  · rw [(CacheLevel.put_fields _ _ _ _ hok1).2.2.2]
    rfl
  · rw [(CacheLevel.put_fields _ _ _ _ hok2).2.2.2]
    rfl

theorem get_db_found (h : CacheHierarchy) (key : String) (v : PyVal)
    (hv : v ≠ PyVal.none) (h1 : lookupOD h.l1.cache key = Option.none)
    (h2 : lookupOD h.l2.cache key = Option.none)
    (h3 : lookupOD h.l3.cache key = Option.none)
    (hdb : lookupOD h.db.data key = some v)
    (hs1 : (1 : Int) ≤ h.l1.size) (hs2 : (1 : Int) ≤ h.l2.size)
    (hs3 : (1 : Int) ≤ h.l3.size) :
    ∃ h', h.get key = .ok (v, h') ∧
      lookupOD h'.l1.cache key = some v ∧ lookupOD h'.l2.cache key = some v ∧
      lookupOD h'.l3.cache key = some v ∧
      h'.db.reads = h.db.reads + 1 ∧ h'.db.data = h.db.data ∧
      h'.db.writes = h.db.writes := by
  obtain ⟨l3'', hok3⟩ := CacheLevel.put_ok_of_size_pos (h.l3.missUpdate) key v hs3
  obtain ⟨l2'', hok2⟩ := CacheLevel.put_ok_of_size_pos (h.l2.missUpdate) key v hs2
  obtain ⟨l1'', hok1⟩ := CacheLevel.put_ok_of_size_pos (h.l1.missUpdate) key v hs1
  refine ⟨{ h with l1 := l1'', l2 := l2'', l3 := l3'', db := { h.db with reads := h.db.reads + 1 } }, ?_, ?_, ?_, ?_, rfl, rfl, rfl⟩
  · unfold CacheHierarchy.get
    rw [CacheLevel.get_miss h.l1 key h1]
    simp only [ne_eq, not_true_eq_false, if_false, reduceIte]
    rw [CacheLevel.get_miss h.l2 key h2]
    simp only [ne_eq, not_true_eq_false, if_false, reduceIte]
    rw [CacheLevel.get_miss h.l3 key h3]
    simp only [ne_eq, not_true_eq_false, if_false, reduceIte]
    simp only [Database.get]
    rw [hdb]
    simp only [Option.getD_some, hv, not_false_eq_true, if_true, reduceIte, ne_eq]
    rw [hok3, hok2, hok1]
  · exact CacheLevel.put_lookup_self _ _ _ _ hok1
  · exact CacheLevel.put_lookup_self _ _ _ _ hok2
  · exact CacheLevel.put_lookup_self _ _ _ _ hok3

theorem get_all_miss (h : CacheHierarchy) (key : String)
    (h1 : lookupOD h.l1.cache key = Option.none)
    (h2 : lookupOD h.l2.cache key = Option.none)
    (h3 : lookupOD h.l3.cache key = Option.none)
    (hdb : lookupOD h.db.data key = Option.none) :
    h.get key = .ok (PyVal.none,
      { h with l1 := h.l1.missUpdate, l2 := h.l2.missUpdate,
               l3 := h.l3.missUpdate,
               db := { h.db with reads := h.db.reads + 1 } }) := by
  unfold CacheHierarchy.get
  rw [CacheLevel.get_miss h.l1 key h1]
  simp only [ne_eq, not_true_eq_false, if_false, reduceIte]
  rw [CacheLevel.get_miss h.l2 key h2]
  simp only [ne_eq, not_true_eq_false, if_false, reduceIte]
  rw [CacheLevel.get_miss h.l3 key h3]
  simp only [ne_eq, not_true_eq_false, if_false, reduceIte]
  simp only [Database.get]
  rw [hdb]
  simp only [Option.getD_none, ne_eq, not_true_eq_false, if_false, reduceIte]

/-- After a successful `CacheHierarchy.put`, the value is stored at every
level and in the database, whose write counter grew by one. -/
theorem CacheHierarchy.put_lookup (h h' : CacheHierarchy) (key : String)
    (v : PyVal) (hput : h.put key v = .ok h') :
    lookupOD h'.l1.cache key = some v ∧ lookupOD h'.l2.cache key = some v ∧
    lookupOD h'.l3.cache key = some v ∧ lookupOD h'.db.data key = some v ∧
    h'.db.reads = h.db.reads ∧ h'.db.writes = h.db.writes + 1 := by
  unfold CacheHierarchy.put at hput
  cases e3 : h.l3.put key v with
  | error e =>
    rw [e3] at hput
    exact absurd hput (by simp)
  | ok l3' =>
    rw [e3] at hput
    cases e2 : h.l2.put key v with
    | error e =>
      rw [e2] at hput
      exact absurd hput (by simp)
    | ok l2' =>
      rw [e2] at hput
      cases e1 : h.l1.put key v with
      | error e =>
        rw [e1] at hput
        exact absurd hput (by simp)
      | ok l1' =>
        rw [e1] at hput
        simp only [Except.ok.injEq] at hput
        rw [← hput]
        exact ⟨CacheLevel.put_lookup_self _ _ _ _ e1,
          CacheLevel.put_lookup_self _ _ _ _ e2,
          CacheLevel.put_lookup_self _ _ _ _ e3,
          lookupOD_assignOD_self h.db.data key v, rfl, rfl⟩

/-! Claims C5 to C7: hierarchy behaviour. -/

/-- C5: for every key and non-`None` value, immediately after
`CacheHierarchy.put(k, v)` succeeds, `CacheHierarchy.get(k)` returns `v`,
registers a hit at the nearest level L1, and performs no additional
backing-store read (the database state and read counter are untouched). -/
theorem put_then_get_hits_l1 (h h' : CacheHierarchy) (key : String) (v : PyVal)
    (hv : v ≠ PyVal.none) (hput : h.put key v = .ok h') :
    ∃ h'', h'.get key = .ok (v, h'') ∧
      h''.l1.hits = h'.l1.hits + 1 ∧ h''.db.reads = h'.db.reads ∧
      h''.l2 = h'.l2 ∧ h''.l3 = h'.l3 ∧ h''.db = h'.db := by
  have hl : lookupOD h'.l1.cache key = some v :=
    (CacheHierarchy.put_lookup h h' key v hput).1
  exact ⟨_, get_l1_found h' key v hv hl, rfl, rfl, rfl, rfl, rfl⟩

/-- Witness for `put_then_get_hits_l1`: on the freshly built hierarchy,
after `put("k", 5)` a `get("k")` returns `5`. -/
theorem put_then_get_hits_l1_witness :
    (CacheHierarchy.get { l1 := { name := "L1", size := 100, access_time := 1/1000, cache := [("k", PyVal.int 5)], hits := 0, misses := 0 }, l2 := { name := "L2", size := 1000, access_time := 1/100, cache := [("k", PyVal.int 5)], hits := 0, misses := 0 }, l3 := { name := "L3", size := 10000, access_time := 1/20, cache := [("k", PyVal.int 5)], hits := 0, misses := 0 }, db := { access_time := 1/10, data := [("k", PyVal.int 5)], reads := 0, writes := 1 } } "k").map Prod.fst = .ok (PyVal.int 5) := by
  obtain ⟨h'', hget, -⟩ := put_then_get_hits_l1 CacheHierarchy.init
    { l1 := { name := "L1", size := 100, access_time := 1/1000, cache := [("k", PyVal.int 5)], hits := 0, misses := 0 }, l2 := { name := "L2", size := 1000, access_time := 1/100, cache := [("k", PyVal.int 5)], hits := 0, misses := 0 }, l3 := { name := "L3", size := 10000, access_time := 1/20, cache := [("k", PyVal.int 5)], hits := 0, misses := 0 }, db := { access_time := 1/10, data := [("k", PyVal.int 5)], reads := 0, writes := 1 } }
    "k" (PyVal.int 5) (by decide) rfl
  rw [hget]
  rfl

/-- C6: `CacheHierarchy.get` probes nearest-to-farthest; a hit at a level
leaves every farther level and the backing store untouched and writes the
value into every nearer level; a full miss queries the backing store and, if
the key is found there, populates every level, while if it is absent there
too the caches are left unpopulated (only miss counters and the read counter
change) and `None` is returned. -/
theorem get_probe_and_populate_order :
    (∀ (h : CacheHierarchy) (key : String) (v : PyVal),
      v ≠ PyVal.none → lookupOD h.l1.cache key = some v →
      h.get key = .ok (v, { h with l1 := h.l1.hitUpdate key })) ∧
    (∀ (h : CacheHierarchy) (key : String) (v : PyVal),
      v ≠ PyVal.none → lookupOD h.l1.cache key = Option.none →
      lookupOD h.l2.cache key = some v → (1 : Int) ≤ h.l1.size →
      ∃ h', h.get key = .ok (v, h') ∧ lookupOD h'.l1.cache key = some v ∧
        h'.l1.misses = h.l1.misses + 1 ∧ h'.l2.hits = h.l2.hits + 1 ∧
        h'.l3 = h.l3 ∧ h'.db = h.db) ∧
    (∀ (h : CacheHierarchy) (key : String) (v : PyVal),
      v ≠ PyVal.none → lookupOD h.l1.cache key = Option.none →
      lookupOD h.l2.cache key = Option.none →
      lookupOD h.l3.cache key = some v →
      (1 : Int) ≤ h.l1.size → (1 : Int) ≤ h.l2.size →
      ∃ h', h.get key = .ok (v, h') ∧ lookupOD h'.l1.cache key = some v ∧
        lookupOD h'.l2.cache key = some v ∧
        h'.l1.misses = h.l1.misses + 1 ∧ h'.l2.misses = h.l2.misses + 1 ∧
        h'.l3.hits = h.l3.hits + 1 ∧ h'.db = h.db) ∧
    (∀ (h : CacheHierarchy) (key : String) (v : PyVal),
      v ≠ PyVal.none → lookupOD h.l1.cache key = Option.none →
      lookupOD h.l2.cache key = Option.none →
      lookupOD h.l3.cache key = Option.none →
      lookupOD h.db.data key = some v →
      (1 : Int) ≤ h.l1.size → (1 : Int) ≤ h.l2.size → (1 : Int) ≤ h.l3.size →
      ∃ h', h.get key = .ok (v, h') ∧ lookupOD h'.l1.cache key = some v ∧
        lookupOD h'.l2.cache key = some v ∧ lookupOD h'.l3.cache key = some v ∧
        h'.db.reads = h.db.reads + 1 ∧ h'.db.data = h.db.data ∧
        h'.db.writes = h.db.writes) ∧
    (∀ (h : CacheHierarchy) (key : String),
      lookupOD h.l1.cache key = Option.none →
      lookupOD h.l2.cache key = Option.none →
      lookupOD h.l3.cache key = Option.none →
      lookupOD h.db.data key = Option.none →
      h.get key = .ok (PyVal.none, { h with l1 := h.l1.missUpdate, l2 := h.l2.missUpdate, l3 := h.l3.missUpdate, db := { h.db with reads := h.db.reads + 1 } })) :=
  ⟨get_l1_found, get_l2_found, get_l3_found, get_db_found, get_all_miss⟩

/-- Witness for `get_probe_and_populate_order`: a hit at L2 is promoted and
returned, and a get on the empty hierarchy misses everywhere. -/
theorem get_probe_and_populate_order_witness :
    ((CacheHierarchy.get { l1 := CacheLevel.mkLevel "L1" 100 (1/1000), l2 := { name := "L2", size := 1000, access_time := 1/100, cache := [("k", PyVal.int 7)], hits := 0, misses := 0 }, l3 := CacheLevel.mkLevel "L3" 10000 (1/20), db := Database.init } "k").map Prod.fst = .ok (PyVal.int 7)) ∧
    CacheHierarchy.init.get "k" = .ok (PyVal.none, { l1 := { name := "L1", size := 100, access_time := 1/1000, cache := [], hits := 0, misses := 1 }, l2 := { name := "L2", size := 1000, access_time := 1/100, cache := [], hits := 0, misses := 1 }, l3 := { name := "L3", size := 10000, access_time := 1/20, cache := [], hits := 0, misses := 1 }, db := { access_time := 1/10, data := [], reads := 1, writes := 0 } }) := by
  constructor
  · obtain ⟨h', hget, -⟩ := get_probe_and_populate_order.2.1
      { l1 := CacheLevel.mkLevel "L1" 100 (1/1000), l2 := { name := "L2", size := 1000, access_time := 1/100, cache := [("k", PyVal.int 7)], hits := 0, misses := 0 }, l3 := CacheLevel.mkLevel "L3" 10000 (1/20), db := Database.init }
      "k" (PyVal.int 7) (by decide) rfl rfl (by decide)
    rw [hget]
    rfl
  · exact get_probe_and_populate_order.2.2.2.2 CacheHierarchy.init "k" rfl rfl rfl rfl

/-- C7 as stated is false: `CacheHierarchy.put` writes the backing store
first, but then populates the cache levels farthest-to-nearest (L3, then
L2, then L1), not L1 before L2 before L3. -/
theorem put_write_order_cex :
    (CacheHierarchy.init.putTraced "k" (PyVal.int 5)).map Prod.snd =
      .ok [WriteEvent.backing "k", WriteEvent.level "L3" "k",
        WriteEvent.level "L2" "k", WriteEvent.level "L1" "k"] ∧
    ([WriteEvent.backing "k", WriteEvent.level "L3" "k",
        WriteEvent.level "L2" "k", WriteEvent.level "L1" "k"] ≠
      [WriteEvent.backing "k", WriteEvent.level "L1" "k",
        WriteEvent.level "L2" "k", WriteEvent.level "L3" "k"]) :=
  ⟨rfl, by decide⟩

/-- C7 amended: `CacheHierarchy.put` first writes to the backing store and
then writes the identical value to the cache levels in farthest-to-nearest
order (L3, L2, L1); afterwards the value is present at every level and in
the backing store, whose write counter grew by one and whose read counter is
untouched. -/
theorem put_backing_first_then_farthest_to_nearest (h : CacheHierarchy)
    (key : String) (v : PyVal) (hs1 : (1 : Int) ≤ h.l1.size)
    (hs2 : (1 : Int) ≤ h.l2.size) (hs3 : (1 : Int) ≤ h.l3.size) :
    ∃ h', h.putTraced key v =
      .ok (h', [WriteEvent.backing key, WriteEvent.level h.l3.name key,
        WriteEvent.level h.l2.name key, WriteEvent.level h.l1.name key]) ∧
      lookupOD h'.l1.cache key = some v ∧ lookupOD h'.l2.cache key = some v ∧
      lookupOD h'.l3.cache key = some v ∧ lookupOD h'.db.data key = some v ∧
      h'.db.writes = h.db.writes + 1 ∧ h'.db.reads = h.db.reads := by
  obtain ⟨l3', hok3⟩ := CacheLevel.put_ok_of_size_pos h.l3 key v hs3
  obtain ⟨l2', hok2⟩ := CacheLevel.put_ok_of_size_pos h.l2 key v hs2
  obtain ⟨l1', hok1⟩ := CacheLevel.put_ok_of_size_pos h.l1 key v hs1
  refine ⟨{ l1 := l1', l2 := l2', l3 := l3', db := h.db.put key v }, ?_, ?_, ?_, ?_, ?_, rfl, rfl⟩
  · unfold CacheHierarchy.putTraced
    rw [hok3, hok2, hok1]
  · exact CacheLevel.put_lookup_self _ _ _ _ hok1
  · exact CacheLevel.put_lookup_self _ _ _ _ hok2
  · exact CacheLevel.put_lookup_self _ _ _ _ hok3
  · exact lookupOD_assignOD_self h.db.data key v

/-- Witness for `put_backing_first_then_farthest_to_nearest` on the freshly
built hierarchy. -/
theorem put_backing_first_witness :
    (CacheHierarchy.init.putTraced "q" (PyVal.int 3)).map Prod.snd =
      .ok [WriteEvent.backing "q", WriteEvent.level "L3" "q",
        WriteEvent.level "L2" "q", WriteEvent.level "L1" "q"] := by
  obtain ⟨h', htr, -⟩ := put_backing_first_then_farthest_to_nearest
    CacheHierarchy.init "q" (PyVal.int 3) (by decide) (by decide) (by decide)
  rw [htr]
  rfl


/-! Claims C8 to C10: configuration errors, key generation, and the None
sentinel. -/

/-- C8 as stated is false: `CacheLevel.__init__` accepts a zero or a
negative capacity without any validation or error. -/
theorem invalid_capacity_accepted_cex :
    CacheLevel.init "L1" 0 (1/1000) = .ok (CacheLevel.mkLevel "L1" 0 (1/1000)) ∧
    CacheLevel.init "L1" (-5) (1/1000) =
      .ok (CacheLevel.mkLevel "L1" (-5) (1/1000)) :=
  ⟨rfl, rfl⟩

/-- C8 amended: constructing a `CacheLevel` with zero or negative capacity
succeeds, storing the capacity unvalidated; only an unknown benchmark
pattern name makes the benchmark fail, and it does so with an unbound-local
error (no branch ever assigns `keys`), not with a descriptive validation
error. -/
theorem invalid_config_behavior :
    (∀ (name : String) (c : Int) (t : Rat),
      CacheLevel.init name c t = .ok (CacheLevel.mkLevel name c t)) ∧
    (∀ (p : String) (n : Nat) (coin : Nat → Bool) (rand : Nat → Nat),
      p ≠ "sequential" → p ≠ "random" → p ≠ "locality" →
      generateKeys p n coin rand =
        .error "UnboundLocalError: local variable keys referenced before assignment") := by
  refine ⟨fun name c t => rfl, fun p n coin rand h1 h2 h3 => ?_⟩
  unfold generateKeys
  rw [if_neg h1, if_neg h2, if_neg h3]

/-- Witness for `invalid_config_behavior`: the pattern name `zigzag` is
rejected with the unbound-local error. -/
theorem invalid_config_behavior_witness :
    generateKeys "zigzag" 3 (fun _ => true) (fun _ => 0) =
      .error "UnboundLocalError: local variable keys referenced before assignment" :=
  invalid_config_behavior.2 "zigzag" 3 (fun _ => true) (fun _ => 0)
    (by decide) (by decide) (by decide)

/-- C9 as stated is false: `random.randint(0, 2N)` includes the upper
endpoint, so the random pattern can generate `key_<2N>`; with N = 1 the
draw 2 yields `key_2`, whose index is not < 2·1. -/
theorem random_range_cex :
    generateKeys "random" 1 (fun _ => true) (fun _ => 2) = .ok ["key_2"] ∧
    ¬ (∃ i : Nat, i < 2 * 1 ∧ "key_2" = "key_" ++ toString i) := by
  refine ⟨rfl, ?_⟩
  rintro ⟨i, hi, he⟩
  interval_cases i <;> exact absurd he (by decide)

/-- C9 amended: every key the random pattern generates is `key_<i>` with
`0 ≤ i ≤ 2N`; the upper endpoint `2N` is attainable because
`random.randint(0, 2N)` draws from the closed interval. -/
theorem random_keys_in_closed_range (n : Nat) (coin : Nat → Bool)
    (rand : Nat → Nat) (ks : List String)
    (hg : generateKeys "random" n coin rand = .ok ks) :
    ∀ k ∈ ks, ∃ i : Nat, i ≤ 2 * n ∧ k = "key_" ++ toString i := by
  have hks : ks = (List.range n).map
      (fun j => "key_" ++ toString (randint 0 (n * 2) (rand j))) := by
    unfold generateKeys at hg
    rw [if_neg (by decide), if_pos rfl] at hg
    simp only [Except.ok.injEq] at hg
    rw [hg]
  intro k hk
  rw [hks] at hk
  simp only [List.mem_map, List.mem_range] at hk
  obtain ⟨j, _, hj⟩ := hk
  refine ⟨randint 0 (n * 2) (rand j), ?_, hj.symm⟩
  unfold randint
  have hm := Nat.mod_lt (rand j) (y := n * 2 + 1 - 0) (by omega)
  omega

/-- Witness for `random_keys_in_closed_range`: the generated key `key_2`
with N = 1 lies in the closed range. -/
theorem random_keys_in_closed_range_witness :
    generateKeys "random" 1 (fun _ => false) (fun _ => 2) = .ok ["key_2"] ∧
    (∃ i : Nat, i ≤ 2 * 1 ∧ "key_2" = "key_" ++ toString i) :=
  ⟨rfl, random_keys_in_closed_range 1 (fun _ => false) (fun _ => 2) ["key_2"]
    rfl "key_2" (by decide)⟩

/-- A `CacheHierarchy.get` when every level and the database store `None`
under the key: every level registers a hit, nothing is populated, and the
database is read once. -/
theorem get_all_none (h : CacheHierarchy) (key : String)
    (h1 : lookupOD h.l1.cache key = some PyVal.none)
    (h2 : lookupOD h.l2.cache key = some PyVal.none)
    (h3 : lookupOD h.l3.cache key = some PyVal.none)
    (hdb : lookupOD h.db.data key = some PyVal.none) :
    h.get key = .ok (PyVal.none,
      { h with l1 := h.l1.hitUpdate key, l2 := h.l2.hitUpdate key,
               l3 := h.l3.hitUpdate key,
               db := { h.db with reads := h.db.reads + 1 } }) := by
  unfold CacheHierarchy.get
  rw [CacheLevel.get_hit h.l1 key PyVal.none h1]
  simp only [ne_eq, not_true_eq_false, if_false, reduceIte]
  rw [CacheLevel.get_hit h.l2 key PyVal.none h2]
  simp only [ne_eq, not_true_eq_false, if_false, reduceIte]
  rw [CacheLevel.get_hit h.l3 key PyVal.none h3]
  simp only [ne_eq, not_true_eq_false, if_false, reduceIte]
  simp only [Database.get]
  rw [hdb]
  simp only [Option.getD_some, ne_eq, not_true_eq_false, if_false, reduceIte]

/-- C10 as stated is false: after `put(k, None)` the key is present (with
stored value `None`) in every cache level, so the subsequent `get(k)`
registers a hit, not a miss, at every level — even though the `None` value
makes the hierarchy fall through to the backing store and return `None`. -/
theorem put_none_get_cex :
    ((CacheHierarchy.init.put "k" PyVal.none).bind
        (fun h1 => h1.get "k")).map
      (fun r => (r.1, r.2.l1.hits, r.2.l1.misses, r.2.l2.hits, r.2.l2.misses,
        r.2.l3.hits, r.2.l3.misses, r.2.db.reads)) =
      .ok (PyVal.none, 1, 0, 1, 0, 1, 0, 1) := rfl

/-- C10 amended: a stored `None` is treated as absent by the hierarchy but
not by the levels: after `put(k, None)` succeeds, `get(k)` registers a hit
(not a miss) at every cache level, falls through to the backing store (one
additional read, no write), populates nothing (every cache keeps its size
and still stores `None` under the key), and returns `None`. -/
theorem put_none_then_get (h h' : CacheHierarchy) (key : String)
    (hwf1 : (h'.l1.cache.map Prod.fst).Nodup)
    (hput : h.put key PyVal.none = .ok h') :
    ∃ h'', h'.get key = .ok (PyVal.none, h'') ∧
      h''.l1.hits = h'.l1.hits + 1 ∧ h''.l2.hits = h'.l2.hits + 1 ∧
      h''.l3.hits = h'.l3.hits + 1 ∧
      h''.l1.misses = h'.l1.misses ∧ h''.l2.misses = h'.l2.misses ∧
      h''.l3.misses = h'.l3.misses ∧
      h''.db.reads = h'.db.reads + 1 ∧ h''.db.writes = h'.db.writes ∧
      lookupOD h''.l1.cache key = some PyVal.none ∧
      h''.l1.cache.length = h'.l1.cache.length ∧
      h''.l2.cache.length = h'.l2.cache.length ∧
      h''.l3.cache.length = h'.l3.cache.length := by
  obtain ⟨hl1, hl2, hl3, hld, -, -⟩ :=
    CacheHierarchy.put_lookup h h' key PyVal.none hput
  refine ⟨_, get_all_none h' key hl1 hl2 hl3 hld, rfl, rfl, rfl, rfl, rfl, rfl,
    rfl, rfl, ?_, ?_, ?_, ?_⟩
  · exact lookupOD_moveToEnd_self h'.l1.cache key PyVal.none hwf1 hl1
  · exact moveToEnd_length h'.l1.cache key
  · exact moveToEnd_length h'.l2.cache key
  · exact moveToEnd_length h'.l3.cache key

/-- Witness for `put_none_then_get` on the freshly built hierarchy. -/
theorem put_none_then_get_witness :
    (CacheHierarchy.get { l1 := { name := "L1", size := 100, access_time := 1/1000, cache := [("k", PyVal.none)], hits := 0, misses := 0 }, l2 := { name := "L2", size := 1000, access_time := 1/100, cache := [("k", PyVal.none)], hits := 0, misses := 0 }, l3 := { name := "L3", size := 10000, access_time := 1/20, cache := [("k", PyVal.none)], hits := 0, misses := 0 }, db := { access_time := 1/10, data := [("k", PyVal.none)], reads := 0, writes := 1 } } "k").map
      (fun r => (r.1, r.2.l1.hits, r.2.l1.misses)) = .ok (PyVal.none, 1, 0) := by
  obtain ⟨h'', hget, hh1, -, -, hm1, -, -, -, -, -, -, -, -⟩ :=
    put_none_then_get CacheHierarchy.init
    { l1 := { name := "L1", size := 100, access_time := 1/1000, cache := [("k", PyVal.none)], hits := 0, misses := 0 }, l2 := { name := "L2", size := 1000, access_time := 1/100, cache := [("k", PyVal.none)], hits := 0, misses := 0 }, l3 := { name := "L3", size := 10000, access_time := 1/20, cache := [("k", PyVal.none)], hits := 0, misses := 0 }, db := { access_time := 1/10, data := [("k", PyVal.none)], reads := 0, writes := 1 } }
    "k" (by decide) rfl
  rw [hget]
  simp only [Except.map]
  rw [hh1, hm1]

end CpuCache
